import Mathlib

set_option autoImplicit false

/-!
Shallow embedding of the dagrs task-DAG engine core:
`src/task/state.rs` (`Content`, `Output`, `ExecState`) and `src/engine/dag.rs`
(task table construction, graph initialization, the per-task execution unit,
`run`/`start`, error handling and result retrieval).

Pure data and control flow are translated directly from the Rust sources.
Concurrency is embedded by making the per-unit observations explicit: each
predecessor wait of a task unit yields the value of the `can_continue` flag
observed right after the wait together with the predecessor's stored `Output`,
and the unit body is a pure function of those observations.  Components of the
repository that are not under `src/` (the dependency graph, `keep_going`) are
modelled from the spec and marked as such in their doc comments.
-/

/-- Closed universe of element types, modelling Rust's runtime type tags
(`std::any::Any` downcasting). `tUsize` and `tString` stand for two arbitrary
distinct `'static` types. -/
inductive Ty where
  | tUsize
  | tString
deriving DecidableEq, Repr

/-- A concrete runtime value together with its runtime type. -/
inductive ConcreteVal where
  | vUsize (n : Nat)
  | vString (s : String)
deriving DecidableEq, Repr

/-- The runtime type of a value: the tag consulted by `downcast`. -/
def tyOf : ConcreteVal → Ty
  | .vUsize _ => .tUsize
  | .vString _ => .tString

/-- `Content` (src/task/state.rs): a type-erased container
`Arc<dyn Any + Send + Sync>` holding one task output value. -/
structure Content where
  val : ConcreteVal
deriving DecidableEq, Repr

/-- `Content::get` (src/task/state.rs): `self.content.downcast_ref::<H>()`,
a view of the value when the requested type matches. -/
def Content.get (c : Content) (t : Ty) : Option ConcreteVal :=
  if tyOf c.val = t then some c.val else none

/-- `Content::into_inner` (src/task/state.rs): `self.content.downcast::<H>().ok()`. -/
def Content.into_inner (c : Content) (t : Ty) : Option ConcreteVal :=
  if tyOf c.val = t then some c.val else none

/-- Modelled from the spec: `Content::is_empty` is called by `Dag::execute_task`
(src/engine/dag.rs) but the symbol is absent from src/task/state.rs. Per spec
§3 (Input), only an empty `Produced(none)` output contributes nothing to an
Input, and that case is already filtered out by `get_output`; a `Content` that
is present is never empty. -/
def Content.is_empty (_ : Content) : Bool := false

/-- Modelled from the spec: `Content::remove` is called by `Dag::get_result`
(src/engine/dag.rs) but absent from src/task/state.rs; spec §4.1 `unwrap<T>`
returns the owned value iff the type matches, the same downcast performed by
`into_inner`. -/
def Content.remove (c : Content) (t : Ty) : Option ConcreteVal :=
  if tyOf c.val = t then some c.val else none

/-- `Output` (src/task/state.rs): output produced by a task. -/
inductive Output where
  | out (c : Option Content)
  | err (msg : String)
  | errWithExitCode (code : Option Int) (c : Option Content)
deriving DecidableEq, Repr

/-- `Output::empty` (src/task/state.rs): `Self::Out(None)`. -/
def Output.empty : Output := Output.out none

/-- `Output::is_err` (src/task/state.rs). -/
def Output.is_err : Output → Bool
  | .err _ => true
  | .errWithExitCode _ _ => true
  | .out _ => false

/-- `Output::get_out` (src/task/state.rs): the inner `Content` for `Out`,
`None` for the error variants. -/
def Output.get_out : Output → Option Content
  | .out c => c
  | .err _ => none
  | .errWithExitCode _ _ => none

/-- `ExecState` (src/task/state.rs): the per-task execution-state slot.  The
semaphore itself is not part of the pure state; permit additions are recorded
in the unit traces below. -/
structure ExecState where
  success : Bool
  output : Output
deriving DecidableEq, Repr

/-- `ExecState::new` (src/task/state.rs): success initialized to `false`,
output to `Output::empty()`. -/
def ExecState.new : ExecState :=
  { success := false, output := Output.empty }

/-- `ExecState::set_output` (src/task/state.rs): stores `true` into `success`
and `output` into the output slot. -/
def ExecState.set_output (st : ExecState) (out : Output) : ExecState :=
  { st with success := true, output := out }

/-- `ExecState::get_output` (src/task/state.rs): `self.output.lock().unwrap().get_out()`. -/
def ExecState.get_output (st : ExecState) : Option Content :=
  st.output.get_out

/-- `ExecState::get_full_output` (src/task/state.rs): a clone of the stored `Output`. -/
def ExecState.get_full_output (st : ExecState) : Output :=
  st.output

/-- `ExecState::exe_success` (src/task/state.rs). -/
def ExecState.exe_success (st : ExecState) : ExecState :=
  { st with success := true }

/-- `ExecState::exe_fail` (src/task/state.rs). -/
def ExecState.exe_fail (st : ExecState) : ExecState :=
  { st with success := false }

/-- Trait `Task` (used by src/engine/dag.rs): stable id, display name and
declared predecessor ids.  Named `DagTask` because Lean already has a `Task`
type.  The action is passed separately to the unit model below, mirroring
`task.action()` being extracted before the spawn. -/
structure DagTask where
  id : Nat
  name : String
  preds : List Nat
deriving DecidableEq, Repr

/-- The engine's task table `tasks: HashMap<usize, Arc<Box<dyn Task>>>`
(src/engine/dag.rs), embedded as an association list keyed by task id. -/
def TaskTable : Type := List (Nat × DagTask)

/-- `HashMap::insert` on the task table: when the key is already present the
stored value is replaced in place, otherwise the entry is appended. -/
def hmInsert (m : List (Nat × DagTask)) (k : Nat) (v : DagTask) : List (Nat × DagTask) :=
  if m.any (fun kv => kv.fst = k) then
    m.map (fun kv => if kv.fst = k then (k, v) else kv)
  else
    m ++ [(k, v)]

/-- `Dag::with_tasks` (src/engine/dag.rs): fold the given tasks into the
table with `dag.tasks.insert(task.id(), ...)`. -/
def withTasks (tasks : List DagTask) : List (Nat × DagTask) :=
  tasks.foldl (fun m t => hmInsert m t.id t) []

/-- `HashMap` lookup `self.tasks[&id]` on the association-list table: the
value of the first (and, once keys are unique, only) entry with the key. -/
def lookupTask : List (Nat × DagTask) → Nat → Option DagTask
  | [], _ => none
  | (a, b) :: m, k => if a = k then some b else lookupTask m k

/-- Specification-side description of last-wins insertion: the last task of
the list carrying the given id, if any. -/
def lastTaskWithId : List DagTask → Nat → Option DagTask
  | [], _ => none
  | t :: ts, k =>
    match lastTaskWithId ts k with
    | some u => some u
    | none => if t.id = k then some t else none

/-- Keys of the task table. -/
def tableKeys (m : List (Nat × DagTask)) : List Nat :=
  m.map Prod.fst

/-- The tasks handed to execution units by `Dag::run` (src/engine/dag.rs):
for every id of the execution sequence, `self.tasks[id]` is spawned. -/
def spawnedTasks (m : List (Nat × DagTask)) (seq : List Nat) : List DagTask :=
  seq.filterMap (lookupTask m)

/-- `DagError` (referenced by src/engine/dag.rs; the error module itself is
not under src/): the initialization error taxonomy of spec §7. -/
inductive DagError where
  | relyTaskIllegal (name : String)
  | loopGraph
  | emptyJob
deriving DecidableEq, Repr

/-- Modelled from the spec: the dependency-graph component (`Graph`, used by
src/engine/dag.rs but not under src/) of §4.3: an id/index bijection given by
the position in `nodes`, plus an edge list over indices. -/
structure Graph where
  nodes : List Nat
  edges : List (Nat × Nat)
deriving DecidableEq, Repr

/-- Modelled from the spec: the index assigned to an id is its insertion
position (`add_node` assigns the next contiguous index, §4.3). -/
def idxOf : Nat → List Nat → Option Nat
  | _, [] => none
  | i, x :: xs => if x = i then some 0 else (idxOf i xs).map (· + 1)

/-- Modelled from the spec: `Graph::find_index_by_id` (§4.3 `index_of`). -/
def Graph.find_index_by_id (g : Graph) (id : Nat) : Option Nat :=
  idxOf id g.nodes

/-- Modelled from the spec: `Graph::find_id_by_index` (§4.3 `id_of`). -/
def Graph.find_id_by_index (g : Graph) (index : Nat) : Option Nat :=
  g.nodes.get? index

/-- Modelled from the spec: `Graph::add_edge` records `src→dst` by index;
duplicates are allowed (§4.3). -/
def Graph.add_edge (g : Graph) (src dst : Nat) : Graph :=
  { g with edges := g.edges ++ [(src, dst)] }

/-- Modelled from the spec: `Graph::get_node_out_degree`, the number of
distinct direct successors of the node with the given id (§4.3: duplicate
edges count once). -/
def Graph.get_node_out_degree (g : Graph) (id : Nat) : Nat :=
  match g.find_index_by_id id with
  | none => 0
  | some i => (((g.edges.filter (fun e => e.fst == i)).map Prod.snd).dedup).length

/-- Modelled from the spec: one round of Kahn's algorithm — the first (that
is, smallest-index, §4.3 tie-breaking) remaining node whose in-degree among
the remaining nodes is zero. -/
def topoPick (edges : List (Nat × Nat)) (remaining : List Nat) : Option Nat :=
  remaining.find? (fun i => !(edges.any (fun e => e.snd == i && remaining.contains e.fst)))

/-- Modelled from the spec: Kahn's algorithm main loop, with fuel bounding the
number of rounds; a self-loop keeps its node's in-degree positive, so cyclic
remainders are reported as `none` (§4.3). -/
def topoLoop (edges : List (Nat × Nat)) : Nat → List Nat → List Nat → Option (List Nat)
  | 0, remaining, acc => if remaining.isEmpty then some acc.reverse else none
  | fuel + 1, remaining, acc =>
    if remaining.isEmpty then some acc.reverse
    else
      match topoPick edges remaining with
      | none => none
      | some i => topoLoop edges fuel (remaining.erase i) (i :: acc)

/-- Modelled from the spec: `Graph::topo_sort` (§4.3): a topological order of
node indices when the graph is acyclic, `none` otherwise. -/
def Graph.topo_sort (g : Graph) : Option (List Nat) :=
  topoLoop g.edges g.nodes.length (List.range g.nodes.length) []

/-- Inner predecessor loop of `Dag::create_graph` (src/engine/dag.rs): for
each declared predecessor id, look up its index and record the edge
`rely_index → index`, failing with `RelyTaskIllegal(task.name())` when a
predecessor id is unknown. -/
def addPreds (g : Graph) (index : Nat) (name : String) : List Nat → Except DagError Graph
  | [] => .ok g
  | p :: ps =>
    match g.find_index_by_id p with
    | none => .error (.relyTaskIllegal name)
    | some relyIndex => addPreds (g.add_edge relyIndex index) index name ps

/-- Edge-building loop of `Dag::create_graph` (src/engine/dag.rs) over the
task-table entries. -/
def createGraphLoop : Graph → List (Nat × DagTask) → Except DagError Graph
  | g, [] => .ok g
  | g, (id, t) :: rest =>
    match addPreds g ((g.find_index_by_id id).getD 0) t.name t.preds with
    | .error e => .error e
    | .ok g2 => createGraphLoop g2 rest

/-- `Dag::create_graph` (src/engine/dag.rs): size the graph, add one node per
task id, then add the predecessor edges of every task.  The `unwrap` on the
current task's own index is rendered with `getD 0`; it cannot fail because
every table key was just added as a node. -/
def createGraph (table : List (Nat × DagTask)) : Except DagError Graph :=
  createGraphLoop { nodes := tableKeys table, edges := [] } table

/-- `Dag::init` (src/engine/dag.rs): allocate the execution states (pure
model: nothing to do), build the graph, topologically sort it, fail with
`EmptyJob` on an empty sequence and `LoopGraph` on a cycle, and translate the
sorted indices back to ids. -/
def Dag.init (table : List (Nat × DagTask)) : Except DagError (List Nat) :=
  match createGraph table with
  | .error e => .error e
  | .ok g =>
    match g.topo_sort with
    | some seq =>
      if seq.isEmpty then .error .emptyJob
      else .ok (seq.map (fun i => (g.find_id_by_index i).getD 0))
    | none => .error .loopGraph

/-- Result of the predecessor-wait loop of a task unit: either the unit was
cancelled at one of the flag checks, or it collected the inputs. -/
inductive InputLoopResult where
  | cancelled
  | done (inputs : List Content)
deriving DecidableEq, Repr

/-- Input collection of one predecessor (src/engine/dag.rs, body of
`execute_task`): `if let Some(content) = wait_for.get_output()` followed by
the `is_empty` filter. -/
def pushInput (observed : Output) (tail : List Content) : List Content :=
  match observed.get_out with
  | some content => if content.is_empty then tail else content :: tail
  | none => tail

/-- Predecessor-wait loop of `Dag::execute_task` (src/engine/dag.rs).  Each
list entry is one predecessor wait: the value of `can_continue` observed right
after the `acquire`, and the predecessor's stored `Output` as read by
`get_output`.  A `false` flag observation returns immediately (`return true`
in the source, rendered as `cancelled`). -/
def inputLoop : List (Bool × Output) → InputLoopResult
  | [] => .done []
  | (canContinue, observed) :: rest =>
    if canContinue = false then .cancelled
    else
      match inputLoop rest with
      | .cancelled => .cancelled
      | .done tailInputs => .done (pushInput observed tailInputs)

/-- Observable effects of one spawned task unit: the boolean the unit
returns, the `Output` it stored via `set_output` (if any), the number of
permits it added to its own semaphore, and whether the task's action was
invoked at all. -/
structure UnitTrace where
  result : Bool
  storedOutput : Option Output
  permitsAdded : Nat
  actionInvoked : Bool
deriving DecidableEq, Repr

/-- Body of the future spawned by `Dag::execute_task` (src/engine/dag.rs):
run the predecessor-wait loop; on cancellation return `true` at once; else
invoke the action on the collected inputs; on `Ok(out)` store the output,
add `task_out_degree` permits and return `true`; on `Err(_)` return `false`
(storing nothing and adding no permits). -/
def executeTask (preds : List (Bool × Output)) (outDegree : Nat)
    (action : List Content → Except String Output) : UnitTrace :=
  match inputLoop preds with
  | .cancelled =>
    { result := true, storedOutput := none, permitsAdded := 0, actionInvoked := false }
  | .done inputs =>
    match action inputs with
    | .ok out =>
      { result := true, storedOutput := some out, permitsAdded := outDegree,
        actionInvoked := true }
    | .error _ =>
      { result := false, storedOutput := none, permitsAdded := 0, actionInvoked := true }

/-- Join-aggregation loop of `Dag::run` (src/engine/dag.rs): each entry is one
joined unit result (`none` models a `JoinError`, mapped to `false` by
`map_or_else`); `exe_success` starts `true` and is cleared by every
non-complete unit. -/
def runResult (unitResults : List (Option Bool)) : Bool :=
  unitResults.foldl (fun acc r => acc && r.getD false) true

/-- Modelled from the spec: the effect of `Dag::handle_error` on the
`can_continue` flag under the keep-going policy.  `keep_going()` is not under
src/ (only tests/dag_job_test.rs calls it); spec §4.5: "When `keep_going()` is
set, a task failure does not flip the global `continue` flag."  With
`keepGoing = false` this is exactly src/engine/dag.rs `handle_error` step 1:
`self.can_continue.store(false, ...)`. -/
def handleErrorFlag (keepGoing : Bool) (canContinue : Bool) : Bool :=
  if keepGoing then canContinue else false

/-- The `can_continue` flag as updated by the join loop of `Dag::run`
(src/engine/dag.rs): every non-complete unit triggers `handle_error`, whose
flag effect is `handleErrorFlag`. -/
def joinLoopFlag (keepGoing : Bool) (unitResults : List (Option Bool)) (flag : Bool) : Bool :=
  unitResults.foldl (fun fl r => if r.getD false then fl else handleErrorFlag keepGoing fl) flag

/-- Observable effects of one `Dag::start` call (src/engine/dag.rs): its
return value, whether `init` ran, whether `run` was entered (that is, whether
any unit could be spawned and any action invoked), and the value of
`can_continue` afterwards. -/
structure StartTrace where
  result : Except DagError Bool
  ranInit : Bool
  ranUnits : Bool
  flagAfter : Bool
deriving Repr

/-- `Dag::start` together with `Dag::run`'s epilogue (src/engine/dag.rs):
when `can_continue` is `false`, return `Ok(false)` at once; otherwise run
`init` (propagating its error and leaving the flag untouched), then `run`,
which aggregates the joined unit results and finally stores `false` into
`can_continue`. -/
def startModel (canContinue : Bool) (initResult : Except DagError Unit)
    (unitResults : List (Option Bool)) : StartTrace :=
  if canContinue then
    match initResult with
    | .error e =>
      { result := .error e, ranInit := true, ranUnits := false, flagAfter := canContinue }
    | .ok _ =>
      { result := .ok (runResult unitResults), ranInit := true, ranUnits := true,
        flagAfter := false }
  else
    { result := .ok false, ranInit := false, ranUnits := false, flagAfter := canContinue }

/-- `Dag::init`'s result as consumed by `start`'s `map_or_else`. -/
def initExceptUnit (table : List (Nat × DagTask)) : Except DagError Unit :=
  (Dag.init table).map (fun _ => ())

/-- `Dag::get_result` (src/engine/dag.rs): `None` on an empty execution
sequence, otherwise the last task's `get_output` content downcast by
`Content::remove` at the requested type.  The source guards with `is_empty()`
and then unwraps `last()`; `getLast?` renders both at once. -/
def getResult (exeSequence : List Nat) (states : Nat → ExecState) (t : Ty) :
    Option ConcreteVal :=
  match exeSequence.getLast? with
  | none => none
  | some lastId =>
    match (states lastId).get_output with
    | some content => content.remove t
    | none => none

/-! Helper lemmas shared by the claim theorems. -/

theorem inputLoop_cancelled_of_flag_false :
    ∀ (preds : List (Bool × Output)), (∃ p ∈ preds, p.fst = false) →
      inputLoop preds = InputLoopResult.cancelled
  | [], h => absurd h (by simp)
  | (b, o) :: rest, h => by
    cases b with
    | false => simp [inputLoop]
    | true =>
      have hrest : ∃ p ∈ rest, p.fst = false := by
        obtain ⟨p, hp, hpf⟩ := h
        rcases List.mem_cons.mp hp with heq | hmem
        · subst heq; simp at hpf
        · exact ⟨p, hmem, hpf⟩
      have := inputLoop_cancelled_of_flag_false rest hrest
      simp [inputLoop, this]

theorem inputLoop_done_of_all_true :
    ∀ (preds : List (Bool × Output)), (∀ p ∈ preds, p.fst = true) →
      ∃ inputs, inputLoop preds = InputLoopResult.done inputs
  | [], _ => ⟨[], rfl⟩
  | (b, o) :: rest, h => by
    have hb : b = true := h (b, o) (List.mem_cons_self _ _)
    subst hb
    have hrest : ∀ p ∈ rest, p.fst = true := fun p hp => h p (List.mem_cons_of_mem _ hp)
    obtain ⟨inputs, hi⟩ := inputLoop_done_of_all_true rest hrest
    exact ⟨pushInput o inputs, by simp [inputLoop, hi]⟩

theorem joinLoopFlag_keep_going :
    ∀ (unitResults : List (Option Bool)) (flag : Bool),
      joinLoopFlag true unitResults flag = flag
  | [], _ => rfl
  | r :: rs, flag => by
    have h1 : joinLoopFlag true (r :: rs) flag =
        joinLoopFlag true rs (if r.getD false then flag else handleErrorFlag true flag) := rfl
    rw [h1, joinLoopFlag_keep_going rs _]
    cases hr : r.getD false <;> simp [handleErrorFlag]

/-! Claim theorems. -/

/-- C1: the claim says a task unit whose action produced an error `Output`
stores it via `set_output` and adds `out_degree` permits *before returning
`false`*.  The code (src/engine/dag.rs, `Ok(out)` arm of `execute_task`)
does store the error output and add the permits, but returns `true`, so the
failure never reaches `Dag::run`'s aggregation; evaluation at an errored
action exhibits the divergence. -/
theorem claim_c1_divergence :
    executeTask [] 1 (fun _ => Except.ok (Output.err "boom")) =
      { result := true, storedOutput := some (Output.err "boom"), permitsAdded := 1,
        actionInvoked := true } := rfl

/-- C2 (amended): `set_output(out)` stores `out` into the output slot and sets
the success flag to `true` unconditionally, for every `Output` variant
(src/task/state.rs, `set_output`). -/
theorem claim_c2_amended :
    ∀ (st : ExecState) (out : Output),
      (st.set_output out).output = out ∧ (st.set_output out).success = true :=
  fun _ _ => ⟨rfl, rfl⟩

/-- C2 counterexample: the claim as stated requires the success flag to be
`false` after storing an error variant; storing `Err("boom")` on a fresh
state leaves success `true`. -/
theorem claim_c2_counterexample :
    ¬ (ExecState.new.set_output (Output.err "boom")).success = false := by decide

/-- C3: the claim says `start()` returns `Ok(true)` iff every task's action
returned `Produced`.  In the code a unit whose action returns
`Ok(Output::Err(..))` contributes `true` to the conjunction, so `start`
reports overall success although that action returned an error variant, not
`Produced`; evaluation at a one-task engine exhibits the divergence. -/
theorem claim_c3_divergence :
    (startModel true (Except.ok ())
        [some (executeTask [] 0 (fun _ => Except.ok (Output.err "x"))).result]).result =
      Except.ok true ∧
    (executeTask [] 0 (fun _ => Except.ok (Output.err "x"))).storedOutput =
      some (Output.err "x") := ⟨rfl, rfl⟩

/-- C5: if a call to `start` returned `Ok(_)` (it executed `run`, or the
engine was already terminal), the `can_continue` flag is `false` afterwards,
and every subsequent `start` call returns `Ok(false)` without running
initialization, without entering `run` (hence without invoking any task
action), and leaves the flag `false`. -/
theorem claim_c5 :
    ∀ (canContinue : Bool) (initRes : Except DagError Unit)
      (units : List (Option Bool)) (b : Bool),
      (startModel canContinue initRes units).result = Except.ok b →
      (startModel canContinue initRes units).flagAfter = false ∧
      ∀ (initRes2 : Except DagError Unit) (units2 : List (Option Bool)),
        (startModel (startModel canContinue initRes units).flagAfter initRes2 units2).result =
            Except.ok false ∧
        (startModel (startModel canContinue initRes units).flagAfter initRes2 units2).ranInit =
            false ∧
        (startModel (startModel canContinue initRes units).flagAfter initRes2 units2).ranUnits =
            false ∧
        (startModel (startModel canContinue initRes units).flagAfter initRes2 units2).flagAfter =
            false := by
  intro canContinue initRes units b h
  cases canContinue with
  | false => exact ⟨rfl, fun _ _ => ⟨rfl, rfl, rfl, rfl⟩⟩
  | true =>
    cases initRes with
    | error e => simp [startModel] at h
    | ok _ =>
      have hflag : (startModel true (Except.ok ()) units).flagAfter = false := rfl
      exact ⟨hflag, fun _ _ => by rw [hflag]; exact ⟨rfl, rfl, rfl, rfl⟩⟩

/-- C5 witness: a run that returned `Ok(true)` leaves the flag `false`, and a
second call returns `Ok(false)`. -/
theorem claim_c5_witness :
    (startModel true (Except.ok ()) [some true]).flagAfter = false ∧
    (startModel (startModel true (Except.ok ()) [some true]).flagAfter
        (Except.ok ()) []).result = Except.ok false := by
  have h := claim_c5 true (Except.ok ()) [some true] true rfl
  exact ⟨h.1, (h.2 (Except.ok ()) []).1⟩

/-- C7: whenever a task unit observes `can_continue = false` at one of the
checks performed right after a predecessor wait, the wait loop is cancelled
and the unit returns `true` immediately: no further input is collected, the
action is not invoked, no output is stored and no permit is added
(src/engine/dag.rs, `execute_task`). -/
theorem claim_c7 :
    ∀ (preds : List (Bool × Output)) (outDegree : Nat)
      (action : List Content → Except String Output),
      (∃ p ∈ preds, p.fst = false) →
      inputLoop preds = InputLoopResult.cancelled ∧
      executeTask preds outDegree action =
        { result := true, storedOutput := none, permitsAdded := 0, actionInvoked := false } := by
  intro preds outDegree action h
  have hc := inputLoop_cancelled_of_flag_false preds h
  exact ⟨hc, by simp [executeTask, hc]⟩

/-- C7 witness: a unit whose single predecessor wait observes the flag
`false` cancels. -/
theorem claim_c7_witness :
    inputLoop [(false, Output.empty)] = InputLoopResult.cancelled ∧
    executeTask [(false, Output.empty)] 5 (fun _ => Except.ok Output.empty) =
      { result := true, storedOutput := none, permitsAdded := 0, actionInvoked := false } :=
  claim_c7 [(false, Output.empty)] 5 (fun _ => Except.ok Output.empty) (by decide)

/-- C4: with the keep-going policy, a task failure leaves the `can_continue`
flag unchanged through the whole join loop of `run` (so it stays `true` during
execution), and every task unit all of whose flag observations are `true`
collects its inputs and invokes its action, that is, runs to completion
normally. -/
theorem claim_c4 :
    ∀ (unitResults : List (Option Bool)) (preds : List (Bool × Output))
      (outDegree : Nat) (action : List Content → Except String Output),
      (∀ p ∈ preds, p.fst = true) →
      joinLoopFlag true unitResults true = true ∧
      (executeTask preds outDegree action).actionInvoked = true := by
  intro unitResults preds outDegree action h
  refine ⟨joinLoopFlag_keep_going unitResults true, ?_⟩
  obtain ⟨inputs, hi⟩ := inputLoop_done_of_all_true preds h
  cases ha : action inputs <;> simp [executeTask, hi, ha]

/-- C4 witness: two failed units do not flip the flag under keep-going, and a
unit observing only `true` flags invokes its action. -/
theorem claim_c4_witness :
    joinLoopFlag true [some false, none] true = true ∧
    (executeTask [(true, Output.empty)] 0
        (fun _ => Except.ok Output.empty)).actionInvoked = true :=
  claim_c4 [some false, none] [(true, Output.empty)] 0 (fun _ => Except.ok Output.empty)
    (by decide)

/-- C9: `ExecState::get_output` returns `Some(content)` iff the stored
`Output` is `Out(Some(content))`; for `Out(None)`, `Err` and
`ErrWithExitCode` it returns `None` (src/task/state.rs, `get_output` and
`Output::get_out`). -/
theorem claim_c9 :
    ∀ (st : ExecState) (c : Content),
      (st.get_output = some c ↔ st.output = Output.out (some c)) ∧
      ((st.output = Output.out none ∨ (∃ m, st.output = Output.err m) ∨
          ∃ code payload, st.output = Output.errWithExitCode code payload) →
        st.get_output = none) := by
  intro st c
  constructor
  · cases h : st.output with
    | out oc => cases oc <;> simp [ExecState.get_output, Output.get_out, h]
    | err m => simp [ExecState.get_output, Output.get_out, h]
    | errWithExitCode a b => simp [ExecState.get_output, Output.get_out, h]
  · rintro (h | ⟨m, h⟩ | ⟨a, b, h⟩) <;> simp [ExecState.get_output, Output.get_out, h]

/-- C9 witness: a state holding an error output yields no content. -/
theorem claim_c9_witness :
    (ExecState.mk false (Output.err "e")).get_output = none :=
  (claim_c9 (ExecState.mk false (Output.err "e")) ⟨ConcreteVal.vUsize 0⟩).2
    (Or.inr (Or.inl ⟨"e", rfl⟩))

/-- C8: `get_result::<T>()` returns `None` when the execution sequence is
empty, and in general returns `Some v` iff the last task of the sequence has
a stored `Output` of the shape `Out(Some(content))` whose content downcasts
to `T` as `v`; error outputs, empty outputs and type mismatches all yield
`None` (src/engine/dag.rs, `get_result`). -/
theorem claim_c8 :
    ∀ (exeSequence : List Nat) (states : Nat → ExecState) (t : Ty) (v : ConcreteVal),
      (exeSequence = [] → getResult exeSequence states t = none) ∧
      (getResult exeSequence states t = some v ↔
        ∃ lastId, exeSequence.getLast? = some lastId ∧
          ∃ c, (states lastId).output = Output.out (some c) ∧ c.remove t = some v) := by
  intro exeSequence states t v
  constructor
  · rintro rfl; rfl
  · cases hl : exeSequence.getLast? with
    | none => simp [getResult, hl]
    | some lastId =>
      cases ho : (states lastId).output with
      | out oc =>
        cases oc with
        | none => simp [getResult, hl, ExecState.get_output, Output.get_out, ho]
        | some c => simp [getResult, hl, ExecState.get_output, Output.get_out, ho]
      | err m => simp [getResult, hl, ExecState.get_output, Output.get_out, ho]
      | errWithExitCode a b => simp [getResult, hl, ExecState.get_output, Output.get_out, ho]

/-- C8 witness: the value of the last task of the sequence is returned at the
matching type. -/
theorem claim_c8_witness :
    getResult [1, 2]
        (fun i => if i = 2 then ⟨true, Output.out (some ⟨ConcreteVal.vUsize 7⟩)⟩
                  else ExecState.new)
        Ty.tUsize = some (ConcreteVal.vUsize 7) :=
  (claim_c8 [1, 2]
      (fun i => if i = 2 then ⟨true, Output.out (some ⟨ConcreteVal.vUsize 7⟩)⟩
                else ExecState.new)
      Ty.tUsize (ConcreteVal.vUsize 7)).2.mpr
    ⟨2, rfl, ⟨ConcreteVal.vUsize 7⟩, by decide, rfl⟩

theorem idxOf_eq_none_iff : ∀ (l : List Nat) (i : Nat), idxOf i l = none ↔ i ∉ l
  | [], i => by simp [idxOf]
  | x :: xs, i => by
    by_cases h : x = i
    · subst h; simp [idxOf]
    · have hne : i ≠ x := fun heq => h heq.symm
      simp [idxOf, h, Option.map_eq_none', idxOf_eq_none_iff xs i, List.mem_cons, hne]

theorem add_edge_nodes (g : Graph) (src dst : Nat) : (g.add_edge src dst).nodes = g.nodes := rfl

theorem addPreds_error_of_unknown :
    ∀ (ps : List Nat) (g : Graph) (index : Nat) (name : String),
      (∃ p ∈ ps, p ∉ g.nodes) →
      addPreds g index name ps = Except.error (DagError.relyTaskIllegal name)
  | [], _, _, _, h => absurd h (by simp)
  | p0 :: ps, g, index, name, h => by
    cases h0 : g.find_index_by_id p0 with
    | none => simp [addPreds, h0]
    | some j =>
      have hp0 : p0 ∈ g.nodes := by
        by_contra hmem
        have : idxOf p0 g.nodes = none := (idxOf_eq_none_iff g.nodes p0).mpr hmem
        rw [Graph.find_index_by_id, this] at h0
        exact Option.noConfusion h0
      have hrest : ∃ p ∈ ps, p ∉ (g.add_edge j index).nodes := by
        obtain ⟨p, hp, hpn⟩ := h
        rcases List.mem_cons.mp hp with heq | hmem
        · subst heq; exact absurd hp0 hpn
        · exact ⟨p, hmem, hpn⟩
      have := addPreds_error_of_unknown ps (g.add_edge j index) index name hrest
      simp [addPreds, h0, this]

theorem addPreds_ok_of_known :
    ∀ (ps : List Nat) (g : Graph) (index : Nat) (name : String),
      (∀ p ∈ ps, p ∈ g.nodes) →
      ∃ g2, addPreds g index name ps = Except.ok g2 ∧ g2.nodes = g.nodes
  | [], g, _, _, _ => ⟨g, rfl, rfl⟩
  | p0 :: ps, g, index, name, h => by
    have hp0 : p0 ∈ g.nodes := h p0 (List.mem_cons_self _ _)
    cases h0 : g.find_index_by_id p0 with
    | none => exact absurd hp0 ((idxOf_eq_none_iff g.nodes p0).mp h0)
    | some j =>
      have hrest : ∀ p ∈ ps, p ∈ (g.add_edge j index).nodes :=
        fun p hp => h p (List.mem_cons_of_mem _ hp)
      obtain ⟨g2, hok, hn⟩ := addPreds_ok_of_known ps (g.add_edge j index) index name hrest
      exact ⟨g2, by simp [addPreds, h0, hok], hn⟩

theorem createGraphLoop_error_of_unknown :
    ∀ (rest : List (Nat × DagTask)) (g : Graph),
      (∃ e ∈ rest, ∃ p ∈ e.snd.preds, p ∉ g.nodes) →
      ∃ e ∈ rest, (∃ p ∈ e.snd.preds, p ∉ g.nodes) ∧
        createGraphLoop g rest = Except.error (DagError.relyTaskIllegal e.snd.name)
  | [], _, h => absurd h (by simp)
  | (id, t) :: rest, g, h => by
    by_cases hbad : ∃ p ∈ t.preds, p ∉ g.nodes
    · have herr :=
        addPreds_error_of_unknown t.preds g ((g.find_index_by_id id).getD 0) t.name hbad
      exact ⟨(id, t), List.mem_cons_self _ _, hbad, by simp [createGraphLoop, herr]⟩
    · have hall : ∀ p ∈ t.preds, p ∈ g.nodes := by
        intro p hp
        by_contra hpn
        exact hbad ⟨p, hp, hpn⟩
      obtain ⟨g2, hok, hn⟩ :=
        addPreds_ok_of_known t.preds g ((g.find_index_by_id id).getD 0) t.name hall
      have hrest : ∃ e ∈ rest, ∃ p ∈ e.snd.preds, p ∉ g2.nodes := by
        rw [hn]
        obtain ⟨e, he, hp⟩ := h
        rcases List.mem_cons.mp he with heq | hmem
        · subst heq; exact absurd hp hbad
        · exact ⟨e, hmem, hp⟩
      obtain ⟨e, he, hp2, herr⟩ := createGraphLoop_error_of_unknown rest g2 hrest
      rw [hn] at hp2
      exact ⟨e, List.mem_cons_of_mem _ he, hp2, by simp [createGraphLoop, hok, herr]⟩

/-- C6: when some task of the table lists a predecessor id that is not a key
of the task table, `create_graph` (and hence `Dag::init` and `start`) fails
with `RelyTaskIllegal` carrying the name of a task that declared an unknown
predecessor, `run` is never entered and no task action is invoked
(src/engine/dag.rs, `create_graph`, `init`, `start`). -/
theorem claim_c6 :
    ∀ (table : List (Nat × DagTask)) (units : List (Option Bool)),
      (∃ e ∈ table, ∃ p ∈ e.snd.preds, p ∉ tableKeys table) →
      ∃ e ∈ table, (∃ p ∈ e.snd.preds, p ∉ tableKeys table) ∧
        Dag.init table = Except.error (DagError.relyTaskIllegal e.snd.name) ∧
        (startModel true (initExceptUnit table) units).result =
          Except.error (DagError.relyTaskIllegal e.snd.name) ∧
        (startModel true (initExceptUnit table) units).ranUnits = false := by
  intro table units h
  have h2 : ∃ e ∈ table, ∃ p ∈ e.snd.preds, p ∉ (Graph.mk (tableKeys table) []).nodes := h
  obtain ⟨e, he, hp, herr⟩ := createGraphLoop_error_of_unknown table _ h2
  have hinit : Dag.init table = Except.error (DagError.relyTaskIllegal e.snd.name) := by
    simp [Dag.init, createGraph, herr]
  have hiu : initExceptUnit table = Except.error (DagError.relyTaskIllegal e.snd.name) := by
    simp [initExceptUnit, hinit, Except.map]
  exact ⟨e, he, hp, hinit, by simp [startModel, hiu], by simp [startModel, hiu]⟩

/-- C6 witness: a single task whose predecessor list names the absent id 2. -/
theorem claim_c6_witness :
    Dag.init [(1, DagTask.mk 1 "a" [2])] = Except.error (DagError.relyTaskIllegal "a") ∧
    (startModel true (initExceptUnit [(1, DagTask.mk 1 "a" [2])]) []).ranUnits = false := by
  obtain ⟨e, he, _, hinit, _, hrun⟩ := claim_c6 [(1, DagTask.mk 1 "a" [2])] [] (by decide)
  have heq : e = (1, DagTask.mk 1 "a" [2]) := by simpa using he
  subst heq
  exact ⟨hinit, hrun⟩

theorem lookup_map_replace_self :
    ∀ (m : List (Nat × DagTask)) (k : Nat) (v : DagTask),
      lookupTask (m.map (fun kv => if kv.fst = k then (k, v) else kv)) k =
        if m.any (fun kv => kv.fst = k) then some v else none
  | [], _, _ => rfl
  | (a, b) :: m, k, v => by
    by_cases h : a = k
    · rw [List.map_cons, if_pos h]
      simp [lookupTask, List.any_cons, h]
    · rw [List.map_cons, if_neg h]
      have hd : (decide (a = k)) = false := by simp [h]
      simp only [lookupTask, List.any_cons, hd, Bool.false_or]
      rw [if_neg h]
      exact lookup_map_replace_self m k v

theorem lookup_map_replace_other :
    ∀ (m : List (Nat × DagTask)) (k k2 : Nat) (v : DagTask), k2 ≠ k →
      lookupTask (m.map (fun kv => if kv.fst = k then (k, v) else kv)) k2 =
        lookupTask m k2
  | [], _, _, _, _ => rfl
  | (a, b) :: m, k, k2, v, hne => by
    by_cases h : a = k
    · rw [List.map_cons, if_pos h]
      have h1 : k ≠ k2 := fun heq => hne heq.symm
      have h2 : a ≠ k2 := h ▸ h1
      simp [lookupTask, h1, h2, lookup_map_replace_other m k k2 v hne]
    · rw [List.map_cons, if_neg h]
      by_cases h2 : a = k2
      · simp [lookupTask, h2]
      · simp [lookupTask, h2, lookup_map_replace_other m k k2 v hne]

theorem lookupTask_append_single :
    ∀ (m : List (Nat × DagTask)) (k : Nat) (v : DagTask) (k2 : Nat),
      lookupTask (m ++ [(k, v)]) k2 =
        match lookupTask m k2 with
        | some x => some x
        | none => if k = k2 then some v else none
  | [], k, v, k2 => by simp [lookupTask]
  | (a, b) :: m, k, v, k2 => by
    by_cases h : a = k2
    · simp [lookupTask, h]
    · simp [lookupTask, h, lookupTask_append_single m k v k2]

theorem lookupTask_eq_none_of_any_false :
    ∀ (m : List (Nat × DagTask)) (k : Nat),
      m.any (fun kv => kv.fst = k) = false → lookupTask m k = none
  | [], _, _ => rfl
  | (a, b) :: m, k, h => by
    rw [List.any_cons] at h
    rcases Bool.or_eq_false_iff.mp h with ⟨ha, hm⟩
    have ha2 : a ≠ k := by simpa using ha
    simp [lookupTask, ha2, lookupTask_eq_none_of_any_false m k hm]

theorem lookupTask_hmInsert_self (m : List (Nat × DagTask)) (k : Nat) (v : DagTask) :
    lookupTask (hmInsert m k v) k = some v := by
  unfold hmInsert
  by_cases hc : m.any (fun kv => kv.fst = k) = true
  · simp [hc, lookup_map_replace_self]
  · have hc2 : m.any (fun kv => kv.fst = k) = false := by
      cases hb : m.any (fun kv => kv.fst = k) with
      | false => rfl
      | true => exact absurd hb hc
    rw [if_neg hc, lookupTask_append_single,
      lookupTask_eq_none_of_any_false m k hc2]
    simp

theorem lookupTask_hmInsert_other (m : List (Nat × DagTask)) (k k2 : Nat) (v : DagTask)
    (hne : k2 ≠ k) : lookupTask (hmInsert m k v) k2 = lookupTask m k2 := by
  unfold hmInsert
  by_cases hc : m.any (fun kv => kv.fst = k) = true
  · simp [hc, lookup_map_replace_other m k k2 v hne]
  · rw [if_neg hc, lookupTask_append_single]
    have hk : k ≠ k2 := fun heq => hne heq.symm
    cases hl : lookupTask m k2 <;> simp [hk]

theorem lookup_foldl :
    ∀ (ts : List DagTask) (m : List (Nat × DagTask)) (k : Nat),
      lookupTask (ts.foldl (fun m t => hmInsert m t.id t) m) k =
        match lastTaskWithId ts k with
        | some u => some u
        | none => lookupTask m k
  | [], m, k => by simp [lastTaskWithId]
  | t :: ts, m, k => by
    rw [List.foldl_cons, lookup_foldl ts (hmInsert m t.id t) k]
    cases hl : lastTaskWithId ts k with
    | some u => simp [lastTaskWithId, hl]
    | none =>
      by_cases hk : t.id = k
      · rw [← hk, lookupTask_hmInsert_self]
        simp [lastTaskWithId, hl, hk]
      · have hne : k ≠ t.id := fun heq => hk heq.symm
        rw [lookupTask_hmInsert_other m t.id k t hne]
        simp [lastTaskWithId, hl, hk]

theorem lookup_withTasks (ts : List DagTask) (k : Nat) :
    lookupTask (withTasks ts) k = lastTaskWithId ts k := by
  rw [withTasks, lookup_foldl]
  cases hl : lastTaskWithId ts k <;> simp [lookupTask]

theorem keys_map_replace :
    ∀ (m : List (Nat × DagTask)) (k : Nat) (v : DagTask),
      tableKeys (m.map (fun kv => if kv.fst = k then (k, v) else kv)) = tableKeys m
  | [], _, _ => rfl
  | (a, b) :: m, k, v => by
    have ih := keys_map_replace m k v
    by_cases h : a = k
    · rw [List.map_cons, if_pos h]
      simp only [tableKeys, List.map_cons] at ih ⊢
      rw [ih]
      simp [h]
    · rw [List.map_cons, if_neg h]
      simp only [tableKeys, List.map_cons] at ih ⊢
      rw [ih]

theorem nodup_keys_hmInsert (m : List (Nat × DagTask)) (k : Nat) (v : DagTask)
    (h : (tableKeys m).Nodup) : (tableKeys (hmInsert m k v)).Nodup := by
  unfold hmInsert
  by_cases hc : m.any (fun kv => kv.fst = k) = true
  · rw [if_pos hc, keys_map_replace m k v]
    exact h
  · rw [if_neg hc]
    have hk : k ∉ tableKeys m := by
      intro hmem
      obtain ⟨kv, hkv, hfst⟩ := List.mem_map.mp hmem
      exact hc (List.any_eq_true.mpr ⟨kv, hkv, by simp [hfst]⟩)
    have hkeys : tableKeys (m ++ [(k, v)]) = tableKeys m ++ [k] := by simp [tableKeys]
    rw [hkeys, List.nodup_append]
    exact ⟨h, List.nodup_singleton k, fun a ha hb => by
      rw [List.mem_singleton] at hb
      subst hb
      exact hk ha⟩

theorem nodup_keys_foldl :
    ∀ (ts : List DagTask) (m : List (Nat × DagTask)),
      (tableKeys m).Nodup →
      (tableKeys (ts.foldl (fun m t => hmInsert m t.id t) m)).Nodup
  | [], _, h => h
  | t :: ts, m, h => by
    rw [List.foldl_cons]
    exact nodup_keys_foldl ts _ (nodup_keys_hmInsert m t.id t h)

/-- C10: inserting tasks with `with_tasks` is last-wins: looking any id up in
the resulting table yields the LAST task of the input vector with that id
(so a later task silently replaces an earlier one with the same id); the
table keys are pairwise distinct (at most one task per id); and every task
spawned by `run` from the table is such a last task, so a replaced task is
never executed (src/engine/dag.rs, `with_tasks` and `run`). -/
theorem claim_c10 :
    ∀ ts : List DagTask,
      (∀ k, lookupTask (withTasks ts) k = lastTaskWithId ts k) ∧
      (tableKeys (withTasks ts)).Nodup ∧
      (∀ (seq : List Nat) (t : DagTask), t ∈ spawnedTasks (withTasks ts) seq →
        ∃ k, lastTaskWithId ts k = some t) := by
  intro ts
  refine ⟨lookup_withTasks ts, nodup_keys_foldl ts [] (by simp [tableKeys]), ?_⟩
  intro seq t ht
  rw [spawnedTasks] at ht
  obtain ⟨a, ha, hl⟩ := List.mem_filterMap.mp ht
  exact ⟨a, (lookup_withTasks ts a) ▸ hl⟩

/-- C10 witness: two tasks with the same id 1; the table keeps the later one
and only it can be spawned. -/
theorem claim_c10_witness :
    lookupTask (withTasks [DagTask.mk 1 "a" [], DagTask.mk 1 "b" []]) 1 =
      lastTaskWithId [DagTask.mk 1 "a" [], DagTask.mk 1 "b" []] 1 ∧
    lookupTask (withTasks [DagTask.mk 1 "a" [], DagTask.mk 1 "b" []]) 1 =
      some (DagTask.mk 1 "b" []) ∧
    (tableKeys (withTasks [DagTask.mk 1 "a" [], DagTask.mk 1 "b" []])).Nodup ∧
    ∃ k, lastTaskWithId [DagTask.mk 1 "a" [], DagTask.mk 1 "b" []] k =
      some (DagTask.mk 1 "b" []) := by
  have h := claim_c10 [DagTask.mk 1 "a" [], DagTask.mk 1 "b" []]
  exact ⟨h.1 1, by decide, h.2.1, h.2.2 [1] (DagTask.mk 1 "b" []) (by decide)⟩
